import Mathlib

/-!
Verification of the sankey-diagram pipeline in `src/create_sankey.py`.

The script is a single linear pipeline:
loader (json → nodes/links, link resolution with warnings) →
leaf classifier (`has_incoming`/`has_outgoing`, `hidden_nodes`) →
graph reducer (`visible_node_ids`/`visible_node_labels`, `old_to_new_index`,
filtered `sources`/`targets`/`values`) →
annotator (`hover_labels` per link, `node_hover_labels` per visible node).

Embedding conventions:
* The three parallel Python lists `all_sources` / `all_targets` / `all_values`
  are modelled as one list of triples `(sourceIdx, targetIdx, value)`; every
  loop in the script iterates them zipped, so this is the same data.
* Link values are modelled as integers (`Int`).  The Python values are JSON
  numbers formatted with `:,.2f`; the numeric formatting of an integer amount
  is the comma-grouped digits followed by `".00"`, which `fmtMoney` computes.
* Python `set`s of indices (`hidden_nodes` etc.) are modelled by their
  characteristic functions / by the sorted list of members of `range N`;
  the script only ever queries membership and size.
* Python dicts are modelled by their ordered item lists (insertion order),
  with lookups as linear scans, which agrees with dict semantics here because
  the keys inserted are distinct.
* Missing-key errors (a missing nodes collection, a missing link value field, …) are modelled by an
  `Except String` loader over a raw document whose fields are `Option`s.
-/

namespace Sankey

/-- A node of the input graph: an id and a display name. -/
structure Node where
  id : String
  name : String
deriving DecidableEq, Repr

/-- A link of the input graph: a source id, a target id and a value. -/
structure Link where
  source : String
  target : String
  value : Int
deriving DecidableEq, Repr

/-- A resolved link triple `(source_idx, target_idx, value)`. -/
abbrev Triple := Nat × Nat × Int

/-- Python list `node_ids`: the id field of each node object. -/
def nodeIds (nodes : List Node) : List String := nodes.map Node.id

/-- Python list `node_labels`: the name field of each node object. -/
def nodeLabels (nodes : List Node) : List String := nodes.map Node.name

/-- Last index `≥ n` at which `s` occurs in the remaining ids (the ids listed
from position `n` on). -/
def lastIdxFrom : List String → Nat → String → Option Nat
  | [], _, _ => none
  | x :: xs, n, s =>
    match lastIdxFrom xs (n + 1) s with
    | some k => some k
    | none => if x = s then some n else none

/-- The dict `node_id_to_index = {node_id: idx for idx, node_id in enumerate(node_ids)}`:
lookup returns the index of the last occurrence of `s` (later dict insertions
overwrite earlier ones), `none` when `s` is not a node id. -/
def nodeIdToIndex (ids : List String) (s : String) : Option Nat :=
  lastIdxFrom ids 0 s

/-- The link-resolution loop (lines 22–36): for each link, skip it when either
endpoint id is unknown, otherwise append the resolved triple. -/
def resolveLinks (ids : List String) (links : List Link) : List Triple :=
  links.foldl
    (fun acc l =>
      match nodeIdToIndex ids l.source, nodeIdToIndex ids l.target with
      | some s, some t => acc ++ [(s, t, l.value)]
      | _, _ => acc)
    []

/-- The links skipped by the resolution loop (those that trigger the warning). -/
def skippedLinks (ids : List String) (links : List Link) : List Link :=
  links.filter
    (fun l => (nodeIdToIndex ids l.source).isNone || (nodeIdToIndex ids l.target).isNone)

/-- The warning lines printed by the resolution loop, one per skipped link. -/
def warnings (ids : List String) (links : List Link) : List String :=
  (skippedLinks ids links).map
    (fun l => "Warning: Skipping link " ++ l.source ++ " -> " ++ l.target ++ " (missing node)")

/-- Membership test of the Python set `has_incoming = set(all_targets)`. -/
def hasIncoming (triples : List Triple) (i : Nat) : Bool :=
  triples.any (fun t => t.2.1 == i)

/-- Membership test of the Python set `has_outgoing = set(all_sources)`. -/
def hasOutgoing (triples : List Triple) (i : Nat) : Bool :=
  triples.any (fun t => t.1 == i)

/-- Membership in `hidden_nodes = leftmost_nodes | rightmost_nodes` for an
index of `range(len(node_ids))`: hidden iff no incoming or no outgoing link. -/
def isHidden (triples : List Triple) (i : Nat) : Bool :=
  !(hasIncoming triples i) || !(hasOutgoing triples i)

/-- The set `leftmost_nodes = set(range(len(node_ids))) - has_incoming`, as a sorted list. -/
def leftmostList (N : Nat) (triples : List Triple) : List Nat :=
  (List.range N).filter (fun i => !(hasIncoming triples i))

/-- The set `rightmost_nodes = set(range(len(node_ids))) - has_outgoing`, as a sorted list. -/
def rightmostList (N : Nat) (triples : List Triple) : List Nat :=
  (List.range N).filter (fun i => !(hasOutgoing triples i))

/-- The set `hidden_nodes` as a sorted list of members of `range N`. -/
def hiddenList (N : Nat) (triples : List Triple) : List Nat :=
  (List.range N).filter (fun i => isHidden triples i)

/-- The original indices of the visible nodes, in original order (the `i` for
which the loop at lines 60–65 takes the `if` branch). -/
def visibleIdx (N : Nat) (triples : List Triple) : List Nat :=
  (List.range N).filter (fun i => !(isHidden triples i))

/-- First index of `i` in a list (linear scan). -/
def idxIn : List Nat → Nat → Option Nat
  | [], _ => none
  | x :: xs, i => if x = i then some 0 else (idxIn xs i).map (fun k => k + 1)

/-- Lookup in the dict `old_to_new_index`: a visible original index is mapped
to its running-counter value, which is its position in `visibleIdx`. -/
def oldToNew (N : Nat) (triples : List Triple) (i : Nat) : Option Nat :=
  idxIn (visibleIdx N triples) i

/-- Python list `visible_node_labels` (parallel to `visible_node_ids`). -/
def visibleLabels (nodes : List Node) (triples : List Triple) : List String :=
  (visibleIdx nodes.length triples).map (fun i => (nodeLabels nodes).getD i "")

/-- Python list `visible_node_ids`. -/
def visibleIds (nodes : List Node) (triples : List Triple) : List String :=
  (visibleIdx nodes.length triples).map (fun i => (nodeIds nodes).getD i "")

/-- The reindexed form of a kept link (lines 75–77).  The dict lookups
`old_to_new_index[...]` always succeed on kept links (proved below); a
failing lookup is modelled by the irrelevant default `0`. -/
def rewriteTriple (N : Nat) (triples : List Triple) (t : Triple) : Triple :=
  ((oldToNew N triples t.1).getD 0, (oldToNew N triples t.2.1).getD 0, t.2.2)

/-- The link-filtering loop (lines 72–77): keep a link iff neither endpoint is
hidden, rewriting its endpoints through `old_to_new_index`. -/
def filteredLinks (N : Nat) (triples : List Triple) : List Triple :=
  triples.foldl
    (fun acc t =>
      if !(isHidden triples t.1) && !(isHidden triples t.2.1) then
        acc ++ [rewriteTriple N triples t]
      else acc)
    []

/-- Comma-group a reversed digit string, three digits at a time. -/
def groupRev : List Char → List Char
  | c1 :: c2 :: c3 :: c :: cs => c1 :: c2 :: c3 :: ',' :: groupRev (c :: cs)
  | cs => cs

/-- Comma-grouped decimal digits of a natural number. -/
def fmtNat (n : Nat) : String :=
  String.mk ((groupRev (toString n).data.reverse).reverse)

/-- The Python `f"...:,.2f"` rendering of an integer amount. -/
def fmtMoney (v : Int) : String :=
  if v < 0 then "-" ++ fmtNat (-v).toNat ++ ".00" else fmtNat v.toNat ++ ".00"

/-- One per-link hover line (line 84). -/
def linkHoverText (sourceName targetName : String) (value : Int) : String :=
  "Z: " ++ sourceName ++ "<br>Do: " ++ targetName ++ "<br>Kwota: " ++ fmtMoney value ++ " zł"

/-- The per-link hover loop (lines 80–85): one line per filtered link, reading
labels from `visible_node_labels` at the reindexed endpoints. -/
def hoverLabels (nodes : List Node) (triples : List Triple) : List String :=
  (filteredLinks nodes.length triples).map
    (fun t =>
      linkHoverText ((visibleLabels nodes triples).getD t.1 "")
        ((visibleLabels nodes triples).getD t.2.1 "") t.2.2)

/-- The ordered item list of the dict `old_to_new_index`: visible original
indices paired with their running-counter values. -/
def buildItems : List Nat → Nat → List (Nat × Nat)
  | [], _ => []
  | o :: os, n => (o, n) :: buildItems os (n + 1)

/-- The reverse scan at lines 93–97: first dict item whose value equals
`node_idx`, or `None`. -/
def origIdxScan : List (Nat × Nat) → Nat → Option Nat
  | [], _ => none
  | (o, n) :: rest, v => if n = v then some o else origIdxScan rest v

/-- The value `original_idx` computed by the annotator for the visible node at new
index `v`. -/
def originalIdx (N : Nat) (triples : List Triple) (v : Nat) : Option Nat :=
  origIdxScan (buildItems (visibleIdx N triples) 0) v

/-- The sum `total_incoming` (lines 100–107): values of all original triples
whose target equals `original_idx` (`oOpt`, possibly `None`, in which case
the Python `==` against an `int` is always false and the sum is `0`). -/
def totalIncoming (triples : List Triple) (oOpt : Option Nat) : Int :=
  (((triples.filter (fun t => some t.2.1 == oOpt)).map (fun t => t.2.2)).sum)

/-- The sum `total_outgoing` (lines 109–117). -/
def totalOutgoing (triples : List Triple) (oOpt : Option Nat) : Int :=
  (((triples.filter (fun t => some t.1 == oOpt)).map (fun t => t.2.2)).sum)

/-- The itemised `incoming` lines (lines 100–107), labels looked up in the
original `node_labels`. -/
def incomingEntries (labels : List String) (triples : List Triple) (oOpt : Option Nat) :
    List String :=
  (triples.filter (fun t => some t.2.1 == oOpt)).map
    (fun t => "  • " ++ labels.getD t.1 "" ++ ": " ++ fmtMoney t.2.2 ++ " zł")

/-- The itemised `outgoing` lines (lines 109–117). -/
def outgoingEntries (labels : List String) (triples : List Triple) (oOpt : Option Nat) :
    List String :=
  (triples.filter (fun t => some t.1 == oOpt)).map
    (fun t => "  • " ++ labels.getD t.2.1 "" ++ ": " ++ fmtMoney t.2.2 ++ " zł")

/-- Concatenation of a list of strings, as the Python join of `parts`. -/
def concatAll : List String → String
  | [] => ""
  | s :: rest => s ++ concatAll rest

/-- The hover text of one visible node (lines 99–131): header with
`total = max(total_incoming, total_outgoing)`, then the itemised incoming and
outgoing sections, each omitted when empty. -/
def nodeHover (labels : List String) (triples : List Triple) (name : String)
    (oOpt : Option Nat) : String :=
  concatAll
    (["<b>" ++ name ++ ": " ++
        fmtMoney (max (totalIncoming triples oOpt) (totalOutgoing triples oOpt)) ++ " zł</b>"]
      ++ (if (incomingEntries labels triples oOpt).isEmpty then []
          else "<br><br>Wpływy:" ::
            (incomingEntries labels triples oOpt).map (fun line => "<br>" ++ line))
      ++ (if (outgoingEntries labels triples oOpt).isEmpty then []
          else "<br><br>Wypływy:" ::
            (outgoingEntries labels triples oOpt).map (fun line => "<br>" ++ line)))

/-- The per-node hover loop (lines 88–131), one entry per visible node. -/
def nodeHoverLabels (nodes : List Node) (triples : List Triple) : List String :=
  (List.range (visibleIdx nodes.length triples).length).map
    (fun v =>
      nodeHover (nodeLabels nodes) triples ((visibleLabels nodes triples).getD v "")
        (originalIdx nodes.length triples v))

/-- A raw node object: required fields may be missing. -/
structure RawNode where
  id : Option String
  name : Option String
deriving DecidableEq, Repr

/-- A raw link object: required fields may be missing. -/
structure RawLink where
  source : Option String
  target : Option String
  value : Option Int
deriving DecidableEq, Repr

/-- The raw input document: the two required top-level collections may be
missing. -/
structure RawDoc where
  nodes : Option (List RawNode)
  links : Option (List RawLink)
deriving DecidableEq, Repr

/-- Extract typed nodes; a missing `id`/`name` field is a `KeyError`. -/
def loadNodes : List RawNode → Except String (List Node)
  | [] => .ok []
  | rn :: rest =>
    match rn.id, rn.name with
    | some i, some nm => (loadNodes rest).map (fun ns => ⟨i, nm⟩ :: ns)
    | _, _ => .error "KeyError: node field"

/-- Extract typed links; a missing `source`/`target`/`value` field is a
`KeyError`. -/
def loadLinks : List RawLink → Except String (List Link)
  | [] => .ok []
  | rl :: rest =>
    match rl.source, rl.target, rl.value with
    | some s, some t, some v => (loadLinks rest).map (fun ls => ⟨s, t, v⟩ :: ls)
    | _, _, _ => .error "KeyError: link field"

/-- The loader: reading the nodes or links collection raises `KeyError` when the
collection is missing, as does any node/link missing a required field. -/
def loadDoc (d : RawDoc) : Except String (List Node × List Link) :=
  match d.nodes with
  | none => .error "KeyError: nodes"
  | some rawNodes =>
    match d.links with
    | none => .error "KeyError: links"
    | some rawLinks =>
      match loadNodes rawNodes with
      | .error e => .error e
      | .ok nodes =>
        match loadLinks rawLinks with
        | .error e => .error e
        | .ok links => .ok (nodes, links)

/-- The rendering-ready bundle assembled by the script (the four arrays handed
to the plotting call, plus the warning lines). -/
structure Output where
  visibleNodeLabels : List String
  links : List Triple
  linkHover : List String
  nodeHover : List String
  warningLines : List String
deriving DecidableEq, Repr

/-- The resolved triples of a typed graph. -/
def allTriples (nodes : List Node) (links : List Link) : List Triple :=
  resolveLinks (nodeIds nodes) links

/-- The whole post-load pipeline on a typed graph. -/
def buildOutput (nodes : List Node) (links : List Link) : Output :=
  { visibleNodeLabels := visibleLabels nodes (allTriples nodes links)
    links := filteredLinks nodes.length (allTriples nodes links)
    linkHover := hoverLabels nodes (allTriples nodes links)
    nodeHover := nodeHoverLabels nodes (allTriples nodes links)
    warningLines := warnings (nodeIds nodes) links }

/-- The whole script: load, then run the pipeline; any `KeyError` aborts
before any output exists. -/
def runPipeline (d : RawDoc) : Except String Output :=
  match loadDoc d with
  | .error e => .error e
  | .ok (nodes, links) => .ok (buildOutput nodes links)

/-- All source/target indices of a triple list are `< N`.  Triples produced by
`resolveLinks` always satisfy this (proved below); the Python set/dict
operations downstream rely on it. -/
def triplesBounded (N : Nat) (triples : List Triple) : Prop :=
  ∀ t ∈ triples, t.1 < N ∧ t.2.1 < N

/-! ### Concrete example graphs (the scenarios of the spec) -/

/-- Scenario C nodes: A, B, C, D. -/
def exNodes : List Node := [⟨"A", "A"⟩, ⟨"B", "B"⟩, ⟨"C", "C"⟩, ⟨"D", "D"⟩]

/-- Scenario C links: A→B:10, B→C:7, C→D:7. -/
def exLinks : List Link := [⟨"A", "B", 10⟩, ⟨"B", "C", 7⟩, ⟨"C", "D", 7⟩]

/-- Scenario E nodes: A, B. -/
def exNodesE : List Node := [⟨"A", "A"⟩, ⟨"B", "B"⟩]

/-- Scenario E links: A→B:5 (every node ends up hidden). -/
def exLinksE : List Link := [⟨"A", "B", 5⟩]

/-! ### Helper lemmas -/

/-- The resolution step function, named for the `foldl` lemmas. -/
theorem resolveLinks_eq_filterMap (ids : List String) (links : List Link) :
    resolveLinks ids links =
      links.filterMap
        (fun l =>
          match nodeIdToIndex ids l.source, nodeIdToIndex ids l.target with
          | some s, some t => some (s, t, l.value)
          | _, _ => none) := by
  suffices h : ∀ (links : List Link) (acc : List Triple),
      links.foldl
        (fun acc l =>
          match nodeIdToIndex ids l.source, nodeIdToIndex ids l.target with
          | some s, some t => acc ++ [(s, t, l.value)]
          | _, _ => acc) acc =
      acc ++ links.filterMap
        (fun l =>
          match nodeIdToIndex ids l.source, nodeIdToIndex ids l.target with
          | some s, some t => some (s, t, l.value)
          | _, _ => none) by
    simpa using h links []
  intro links
  induction links with
  | nil => intro acc; simp
  | cons l ls ih =>
    intro acc
    rcases hs : nodeIdToIndex ids l.source with _ | s <;>
      rcases ht : nodeIdToIndex ids l.target with _ | t <;>
      simp [List.foldl_cons, List.filterMap_cons, hs, ht, ih]

theorem filteredLinks_eq_filterMap (N : Nat) (triples : List Triple) :
    filteredLinks N triples =
      (triples.filter (fun t => !(isHidden triples t.1) && !(isHidden triples t.2.1))).map
        (rewriteTriple N triples) := by
  suffices h : ∀ (l : List Triple) (acc : List Triple),
      l.foldl
        (fun acc t =>
          if !(isHidden triples t.1) && !(isHidden triples t.2.1) then
            acc ++ [rewriteTriple N triples t]
          else acc) acc =
      acc ++ (l.filter (fun t => !(isHidden triples t.1) && !(isHidden triples t.2.1))).map
        (rewriteTriple N triples) by
    simpa only [List.nil_append] using h triples []
  intro l
  induction l with
  | nil => intro acc; simp
  | cons t ts ih =>
    intro acc
    rw [List.foldl_cons, List.filter_cons]
    by_cases hk : (!(isHidden triples t.1) && !(isHidden triples t.2.1)) = true
    · rw [if_pos hk, if_pos hk, ih, List.map_cons]
      simp
    · rw [if_neg hk, if_neg hk, ih]

theorem mem_visibleIdx {N : Nat} {triples : List Triple} {i : Nat} :
    i ∈ visibleIdx N triples ↔ i < N ∧ isHidden triples i = false := by
  simp [visibleIdx, List.mem_filter, List.mem_range]

theorem mem_hiddenList {N : Nat} {triples : List Triple} {i : Nat} :
    i ∈ hiddenList N triples ↔ i < N ∧ isHidden triples i = true := by
  simp [hiddenList, List.mem_filter, List.mem_range]

theorem visibleIdx_nodup (N : Nat) (triples : List Triple) :
    (visibleIdx N triples).Nodup :=
  (List.nodup_range N).filter _

theorem visibleIdx_sorted (N : Nat) (triples : List Triple) :
    (visibleIdx N triples).Pairwise (· < ·) :=
  (List.pairwise_lt_range N).filter _

theorem idxIn_eq_some_iff {l : List Nat} (hl : l.Nodup) :
    ∀ {i k : Nat}, idxIn l i = some k ↔ l.get? k = some i := by
  induction l with
  | nil => intro i k; simp [idxIn]
  | cons a l ih =>
    intro i k
    rcases List.nodup_cons.mp hl with ⟨ha, hl'⟩
    by_cases hai : a = i
    · subst hai
      cases k with
      | zero => simp [idxIn]
      | succ m =>
        simp only [idxIn, if_pos rfl, List.get?_cons_succ]
        constructor
        · intro h; exact absurd h (by simp)
        · intro h; exact absurd (List.get?_mem h) ha
    · cases k with
      | zero =>
        simp only [idxIn, if_neg hai, List.get?_cons_zero]
        constructor
        · intro h
          rcases Option.map_eq_some'.mp h with ⟨m, _, hm⟩
          omega
        · intro h; exact absurd (Option.some.inj h) hai
      | succ m =>
        simp only [idxIn, if_neg hai, List.get?_cons_succ]
        constructor
        · intro h
          rcases Option.map_eq_some'.mp h with ⟨m', hm', he⟩
          have : m' = m := by omega
          subst this
          exact (ih hl').mp hm'
        · intro h
          rw [(ih hl').mpr h]
          rfl

theorem origIdxScan_buildItems :
    ∀ (l : List Nat) (n v : Nat),
      origIdxScan (buildItems l n) v = if v < n then none else l.get? (v - n)
  | [], n, v => by simp [buildItems, origIdxScan]
  | o :: os, n, v => by
    simp only [buildItems, origIdxScan]
    by_cases hnv : n = v
    · subst hnv
      simp
    · rw [if_neg hnv, origIdxScan_buildItems os (n + 1) v]
      by_cases h1 : v < n
      · rw [if_pos (by omega), if_pos h1]
      · rw [if_neg (by omega : ¬v < n + 1), if_neg h1]
        have hvn : v - n = (v - (n + 1)) + 1 := by omega
        rw [hvn]
        rfl

theorem originalIdx_eq_get? (N : Nat) (triples : List Triple) (v : Nat) :
    originalIdx N triples v = (visibleIdx N triples).get? v := by
  rw [originalIdx, origIdxScan_buildItems]
  simp

theorem lastIdxFrom_lt {xs : List String} :
    ∀ {n k : Nat} {s : String}, lastIdxFrom xs n s = some k → n ≤ k ∧ k < n + xs.length := by
  induction xs with
  | nil => intro n k s h; simp [lastIdxFrom] at h
  | cons x xs ih =>
    intro n k s h
    simp only [lastIdxFrom] at h
    rcases hr : lastIdxFrom xs (n + 1) s with _ | k'
    · rw [hr] at h
      by_cases hx : x = s
      · rw [if_pos hx] at h
        have : n = k := Option.some.inj h
        subst this
        simp
      · rw [if_neg hx] at h
        exact absurd h (by simp)
    · rw [hr] at h
      have hk : k' = k := Option.some.inj h
      subst hk
      have := ih hr
      constructor <;> [omega; (simp only [List.length_cons]; omega)]

theorem lastIdxFrom_isNone_iff {xs : List String} :
    ∀ {n : Nat} {s : String}, lastIdxFrom xs n s = none ↔ s ∉ xs := by
  induction xs with
  | nil => intro n s; simp [lastIdxFrom]
  | cons x xs ih =>
    intro n s
    simp only [lastIdxFrom]
    rcases hr : lastIdxFrom xs (n + 1) s with _ | k
    · by_cases hx : x = s
      · simp [if_pos hx, hx]
      · simp [if_neg hx, ih.mp hr, hx, Ne.symm hx]
    · constructor
      · intro h; exact absurd h (by simp)
      · intro h
        exact absurd (by
          intro hc
          rw [ih.mpr (fun hm => h (List.mem_cons_of_mem x hm))] at hr
          exact absurd hr (by simp) : lastIdxFrom xs (n + 1) s ≠ some k) (by simp [hr])

theorem nodeIdToIndex_lt {ids : List String} {s : String} {k : Nat}
    (h : nodeIdToIndex ids s = some k) : k < ids.length := by
  have hb : 0 ≤ k ∧ k < 0 + ids.length := lastIdxFrom_lt h
  omega

theorem nodeIdToIndex_isNone_iff {ids : List String} {s : String} :
    nodeIdToIndex ids s = none ↔ s ∉ ids :=
  lastIdxFrom_isNone_iff

theorem resolveLinks_bounded (ids : List String) (links : List Link) :
    triplesBounded ids.length (resolveLinks ids links) := by
  intro t ht
  rw [resolveLinks_eq_filterMap] at ht
  rcases List.mem_filterMap.mp ht with ⟨l, _, hl⟩
  rcases hs : nodeIdToIndex ids l.source with _ | s <;>
    rcases htg : nodeIdToIndex ids l.target with _ | tg <;>
      rw [hs, htg] at hl
  · exact absurd hl (by simp)
  · exact absurd hl (by simp)
  · exact absurd hl (by simp)
  · obtain rfl := Option.some.inj hl
    exact ⟨nodeIdToIndex_lt hs, nodeIdToIndex_lt htg⟩

theorem allTriples_bounded (nodes : List Node) (links : List Link) :
    triplesBounded nodes.length (allTriples nodes links) := by
  have h := resolveLinks_bounded (nodeIds nodes) links
  simpa [allTriples, nodeIds] using h

theorem length_filter_not_add_length_filter {α : Type} (l : List α) (p : α → Bool) :
    (l.filter (fun x => !(p x))).length + (l.filter p).length = l.length := by
  induction l with
  | nil => simp
  | cons x xs ih => cases hx : p x <;> simp [List.filter_cons, hx] <;> omega

theorem mem_filteredLinks {N : Nat} {triples : List Triple} {ft : Triple} :
    ft ∈ filteredLinks N triples ↔
      ∃ t ∈ triples, (isHidden triples t.1 = false ∧ isHidden triples t.2.1 = false) ∧
        rewriteTriple N triples t = ft := by
  rw [filteredLinks_eq_filterMap]
  simp only [List.mem_map, List.mem_filter, Bool.and_eq_true, Bool.not_eq_true']
  constructor
  · rintro ⟨t, ⟨ht, h1, h2⟩, he⟩
    exact ⟨t, ht, ⟨h1, h2⟩, he⟩
  · rintro ⟨t, ht, ⟨h1, h2⟩, he⟩
    exact ⟨t, ⟨ht, h1, h2⟩, he⟩

theorem oldToNew_eq_some_iff {N : Nat} {triples : List Triple} {o k : Nat} :
    oldToNew N triples o = some k ↔ (visibleIdx N triples).get? k = some o :=
  idxIn_eq_some_iff (visibleIdx_nodup N triples)

theorem oldToNew_of_visible {N : Nat} {triples : List Triple} {o : Nat}
    (h1 : o < N) (h2 : isHidden triples o = false) :
    ∃ k, oldToNew N triples o = some k ∧ k < (visibleIdx N triples).length := by
  have hm : o ∈ visibleIdx N triples := mem_visibleIdx.mpr ⟨h1, h2⟩
  rcases List.mem_iff_get?.mp hm with ⟨k, hk⟩
  refine ⟨k, oldToNew_eq_some_iff.mpr hk, ?_⟩
  rcases List.get?_eq_some.mp hk with ⟨hlt, _⟩
  exact hlt

theorem visibleLabels_getD_eq {nodes : List Node} {triples : List Triple} {o k : Nat}
    (h : oldToNew nodes.length triples o = some k) :
    (visibleLabels nodes triples).getD k "" = (nodeLabels nodes).getD o "" := by
  have hg : (visibleIdx nodes.length triples).get? k = some o := oldToNew_eq_some_iff.mp h
  have hm : (visibleLabels nodes triples).get? k = some ((nodeLabels nodes).getD o "") := by
    rw [visibleLabels, List.get?_map, hg]
    rfl
  rw [List.getD_eq_get?, hm]
  rfl

theorem sum_map_filter_eq_sum_ite {α : Type} (l : List α) (p : α → Bool) (f : α → Int) :
    ((l.filter p).map f).sum = (l.map (fun x => if p x then f x else 0)).sum := by
  induction l with
  | nil => rfl
  | cons x xs ih => cases hx : p x <;> simp [List.filter_cons, hx, ih]

theorem loadNodes_map_ok (nodes : List Node) :
    loadNodes (nodes.map (fun n => ⟨some n.id, some n.name⟩)) = .ok nodes := by
  induction nodes with
  | nil => rfl
  | cons n ns ih => rw [List.map_cons, loadNodes, ih]; rfl

theorem loadLinks_map_ok (links : List Link) :
    loadLinks (links.map (fun l => ⟨some l.source, some l.target, some l.value⟩)) =
      .ok links := by
  induction links with
  | nil => rfl
  | cons l ls ih => rw [List.map_cons, loadLinks, ih]; rfl

theorem loadNodes_error_of_bad {l : List RawNode}
    (h : ∃ rn ∈ l, rn.id = none ∨ rn.name = none) :
    ∃ e, loadNodes l = .error e := by
  induction l with
  | nil => simp at h
  | cons rn rest ih =>
    rcases h with ⟨r, hr, hbad⟩
    rcases List.mem_cons.mp hr with rfl | hr'
    · rcases hid : r.id with _ | i <;> rcases hnm : r.name with _ | nm
      · exact ⟨"KeyError: node field", by simp [loadNodes, hid, hnm]⟩
      · exact ⟨"KeyError: node field", by simp [loadNodes, hid, hnm]⟩
      · exact ⟨"KeyError: node field", by simp [loadNodes, hid, hnm]⟩
      · rw [hid, hnm] at hbad
        simp at hbad
    · rcases hid : rn.id with _ | i <;> rcases hnm : rn.name with _ | nm
      · exact ⟨"KeyError: node field", by simp [loadNodes, hid, hnm]⟩
      · exact ⟨"KeyError: node field", by simp [loadNodes, hid, hnm]⟩
      · exact ⟨"KeyError: node field", by simp [loadNodes, hid, hnm]⟩
      · rcases ih ⟨r, hr', hbad⟩ with ⟨e, he⟩
        exact ⟨e, by simp [loadNodes, hid, hnm, he, Except.map]⟩

theorem loadLinks_error_of_bad {l : List RawLink}
    (h : ∃ rl ∈ l, rl.source = none ∨ rl.target = none ∨ rl.value = none) :
    ∃ e, loadLinks l = .error e := by
  induction l with
  | nil => simp at h
  | cons rl rest ih =>
    rcases h with ⟨r, hr, hbad⟩
    rcases List.mem_cons.mp hr with rfl | hr'
    · rcases hs : r.source with _ | s <;> rcases ht : r.target with _ | t <;>
        rcases hvv : r.value with _ | vv
      case some.some.some =>
        rw [hs, ht, hvv] at hbad
        simp at hbad
      all_goals exact ⟨"KeyError: link field", by simp [loadLinks, hs, ht, hvv]⟩
    · rcases hs : rl.source with _ | s <;> rcases ht : rl.target with _ | t <;>
        rcases hvv : rl.value with _ | vv
      case some.some.some =>
        rcases ih ⟨r, hr', hbad⟩ with ⟨e, he⟩
        exact ⟨e, by simp [loadLinks, hs, ht, hvv, he, Except.map]⟩
      all_goals exact ⟨"KeyError: link field", by simp [loadLinks, hs, ht, hvv]⟩

theorem hasIncoming_iff {triples : List Triple} {i : Nat} :
    hasIncoming triples i = true ↔ ∃ t ∈ triples, t.2.1 = i := by
  simp [hasIncoming, List.any_eq_true]

theorem hasOutgoing_iff {triples : List Triple} {i : Nat} :
    hasOutgoing triples i = true ↔ ∃ t ∈ triples, t.1 = i := by
  simp [hasOutgoing, List.any_eq_true]

theorem mem_leftmostList {N : Nat} {triples : List Triple} {i : Nat} :
    i ∈ leftmostList N triples ↔ i < N ∧ hasIncoming triples i = false := by
  simp [leftmostList, List.mem_filter, List.mem_range]

theorem mem_rightmostList {N : Nat} {triples : List Triple} {i : Nat} :
    i ∈ rightmostList N triples ↔ i < N ∧ hasOutgoing triples i = false := by
  simp [rightmostList, List.mem_filter, List.mem_range]

/-! ### Claim theorems -/

/-- C1: a node of the graph is classified hidden iff it lies in
`leftmost ∪ rightmost`, i.e. iff it has zero incoming links or zero outgoing
links over the resolved link triples; an isolated node is hidden, and a node
with at least one incoming and at least one outgoing link stays visible. -/
theorem hidden_iff_pure_source_or_pure_sink (N : Nat) (triples : List Triple) (i : Nat)
    (hi : i < N) :
    (i ∈ hiddenList N triples ↔ i ∈ leftmostList N triples ∨ i ∈ rightmostList N triples) ∧
    (i ∈ hiddenList N triples ↔
      (¬∃ t ∈ triples, t.2.1 = i) ∨ (¬∃ t ∈ triples, t.1 = i)) ∧
    ((∀ t ∈ triples, t.1 ≠ i ∧ t.2.1 ≠ i) → i ∈ hiddenList N triples) ∧
    (((∃ t ∈ triples, t.2.1 = i) ∧ (∃ t ∈ triples, t.1 = i)) →
      i ∉ hiddenList N triples ∧ i ∈ visibleIdx N triples) := by
  have hchar : i ∈ hiddenList N triples ↔
      hasIncoming triples i = false ∨ hasOutgoing triples i = false := by
    rw [mem_hiddenList]
    simp [isHidden, hi]
  refine ⟨?_, ?_, ?_, ?_⟩
  · rw [hchar, mem_leftmostList, mem_rightmostList]
    constructor
    · rintro (h | h)
      · exact Or.inl ⟨hi, h⟩
      · exact Or.inr ⟨hi, h⟩
    · rintro (⟨_, h⟩ | ⟨_, h⟩)
      · exact Or.inl h
      · exact Or.inr h
  · rw [hchar]
    rw [← hasIncoming_iff, ← hasOutgoing_iff]
    simp
  · intro h
    rw [hchar]
    left
    rw [← Bool.not_eq_true, hasIncoming_iff]
    rintro ⟨t, ht, hti⟩
    exact (h t ht).2 hti
  · rintro ⟨hin, hout⟩
    have h1 : hasIncoming triples i = true := hasIncoming_iff.mpr hin
    have h2 : hasOutgoing triples i = true := hasOutgoing_iff.mpr hout
    constructor
    · rw [hchar]
      simp [h1, h2]
    · refine mem_visibleIdx.mpr ⟨hi, ?_⟩
      simp [isHidden, h1, h2]

/-- C1 witness: scenario C of the spec — nodes A,B,C,D with links
A→B, B→C, C→D; node 1 (B) has both sides, nodes 0 and 3 are leaves. -/
theorem hidden_iff_pure_source_or_pure_sink_witness :
    (1 < 4) ∧
    ((1 ∈ hiddenList 4 [(0, 1, 10), (1, 2, 7), (2, 3, 7)] ↔
        1 ∈ leftmostList 4 [(0, 1, 10), (1, 2, 7), (2, 3, 7)] ∨
        1 ∈ rightmostList 4 [(0, 1, 10), (1, 2, 7), (2, 3, 7)]) ∧
      (1 ∈ hiddenList 4 [(0, 1, 10), (1, 2, 7), (2, 3, 7)] ↔
        (¬∃ t ∈ [((0 : Nat), (1 : Nat), (10 : Int)), (1, 2, 7), (2, 3, 7)], t.2.1 = 1) ∨
        (¬∃ t ∈ [((0 : Nat), (1 : Nat), (10 : Int)), (1, 2, 7), (2, 3, 7)], t.1 = 1)) ∧
      ((∀ t ∈ [((0 : Nat), (1 : Nat), (10 : Int)), (1, 2, 7), (2, 3, 7)],
          t.1 ≠ 1 ∧ t.2.1 ≠ 1) →
        1 ∈ hiddenList 4 [(0, 1, 10), (1, 2, 7), (2, 3, 7)]) ∧
      (((∃ t ∈ [((0 : Nat), (1 : Nat), (10 : Int)), (1, 2, 7), (2, 3, 7)], t.2.1 = 1) ∧
          (∃ t ∈ [((0 : Nat), (1 : Nat), (10 : Int)), (1, 2, 7), (2, 3, 7)], t.1 = 1)) →
        1 ∉ hiddenList 4 [(0, 1, 10), (1, 2, 7), (2, 3, 7)] ∧
        1 ∈ visibleIdx 4 [(0, 1, 10), (1, 2, 7), (2, 3, 7)])) :=
  ⟨by decide, hidden_iff_pure_source_or_pure_sink 4 [(0, 1, 10), (1, 2, 7), (2, 3, 7)] 1
    (by decide)⟩

/-- C5: for every input graph, the number of visible nodes plus the number of
hidden nodes equals the number of original nodes. -/
theorem visible_plus_hidden_eq_total (nodes : List Node) (links : List Link) :
    (visibleLabels nodes (allTriples nodes links)).length +
      (hiddenList nodes.length (allTriples nodes links)).length = nodes.length := by
  have h := length_filter_not_add_length_filter (List.range nodes.length)
    (fun i => isHidden (allTriples nodes links) i)
  simpa [visibleLabels, visibleIdx, hiddenList] using h

/-- C6: a link with an endpoint id absent from the node set is excluded from
the resolved link set (dropping all such links changes nothing downstream),
exactly one warning is emitted per skipped link, every link is either resolved
or skipped, and a link with an unknown endpoint is skipped with its warning
present. -/
theorem unknown_endpoint_link_skipped (ids : List String) (links : List Link) :
    resolveLinks ids links =
      resolveLinks ids (links.filter
        (fun l => (nodeIdToIndex ids l.source).isSome && (nodeIdToIndex ids l.target).isSome)) ∧
    (warnings ids links).length = (skippedLinks ids links).length ∧
    (resolveLinks ids links).length + (skippedLinks ids links).length = links.length ∧
    (∀ l ∈ links, (l.source ∉ ids ∨ l.target ∉ ids) →
      l ∈ skippedLinks ids links ∧
      ("Warning: Skipping link " ++ l.source ++ " -> " ++ l.target ++ " (missing node)")
        ∈ warnings ids links) := by
  refine ⟨?_, ?_, ?_, ?_⟩
  · rw [resolveLinks_eq_filterMap, resolveLinks_eq_filterMap]
    induction links with
    | nil => rfl
    | cons l ls ih =>
      rw [List.filter_cons]
      rcases hs : nodeIdToIndex ids l.source with _ | s <;>
        rcases ht : nodeIdToIndex ids l.target with _ | t <;>
          simp [List.filterMap_cons, hs, ht, ih]
  · simp [warnings]
  · rw [resolveLinks_eq_filterMap]
    induction links with
    | nil => rfl
    | cons l ls ih =>
      rw [List.filterMap_cons, skippedLinks, List.filter_cons]
      rw [skippedLinks] at ih
      rcases hs : nodeIdToIndex ids l.source with _ | s <;>
        rcases ht : nodeIdToIndex ids l.target with _ | t <;>
          simp [hs, ht] <;> omega
  · intro l hl habs
    have hskip : ((nodeIdToIndex ids l.source).isNone ||
        (nodeIdToIndex ids l.target).isNone) = true := by
      rcases habs with h | h
      · rw [Bool.or_eq_true, Option.isNone_iff_eq_none, Option.isNone_iff_eq_none]
        exact Or.inl (nodeIdToIndex_isNone_iff.mpr h)
      · rw [Bool.or_eq_true, Option.isNone_iff_eq_none, Option.isNone_iff_eq_none]
        exact Or.inr (nodeIdToIndex_isNone_iff.mpr h)
    have hm : l ∈ skippedLinks ids links := List.mem_filter.mpr ⟨hl, hskip⟩
    exact ⟨hm, List.mem_map.mpr ⟨l, hm, rfl⟩⟩

/-- C3: the filtered link list is exactly the sublist of resolved links whose
endpoints are both not hidden, in original relative order with values
unchanged, endpoints rewritten through the old→new mapping; every survivor
stems from a link with two visible endpoints whose lookups both succeed. -/
theorem filtered_links_characterization (N : Nat) (triples : List Triple)
    (hb : triplesBounded N triples) :
    filteredLinks N triples =
      (triples.filter
        (fun t => !(isHidden triples t.1) && !(isHidden triples t.2.1))).map
        (rewriteTriple N triples) ∧
    (filteredLinks N triples).map (fun t => t.2.2) =
      (triples.filter
        (fun t => !(isHidden triples t.1) && !(isHidden triples t.2.1))).map
        (fun t => t.2.2) ∧
    (∀ ft ∈ filteredLinks N triples, ∃ t ∈ triples,
      isHidden triples t.1 = false ∧ isHidden triples t.2.1 = false ∧
      oldToNew N triples t.1 = some ft.1 ∧ oldToNew N triples t.2.1 = some ft.2.1 ∧
      ft.2.2 = t.2.2) := by
  refine ⟨filteredLinks_eq_filterMap N triples, ?_, ?_⟩
  · rw [filteredLinks_eq_filterMap, List.map_map]
    rfl
  · intro ft hft
    rcases mem_filteredLinks.mp hft with ⟨t, ht, ⟨h1, h2⟩, hrw⟩
    rcases oldToNew_of_visible (hb t ht).1 h1 with ⟨k1, hk1, _⟩
    rcases oldToNew_of_visible (hb t ht).2 h2 with ⟨k2, hk2, _⟩
    refine ⟨t, ht, h1, h2, ?_, ?_, ?_⟩
    · rw [hk1, ← hrw, rewriteTriple, hk1]
      rfl
    · rw [hk2, ← hrw, rewriteTriple, hk2]
      rfl
    · rw [← hrw]
      rfl

/-- C4: every source or target index in the filtered link list is strictly
less than the number of visible nodes, so label lookups on filtered links
never go out of bounds. -/
theorem filtered_indices_in_range (nodes : List Node) (links : List Link) :
    ∀ ft ∈ filteredLinks nodes.length (allTriples nodes links),
      ft.1 < (visibleLabels nodes (allTriples nodes links)).length ∧
      ft.2.1 < (visibleLabels nodes (allTriples nodes links)).length := by
  intro ft hft
  have hb := allTriples_bounded nodes links
  rcases mem_filteredLinks.mp hft with ⟨t, ht, ⟨h1, h2⟩, hrw⟩
  rcases oldToNew_of_visible (hb t ht).1 h1 with ⟨k1, hk1, hl1⟩
  rcases oldToNew_of_visible (hb t ht).2 h2 with ⟨k2, hk2, hl2⟩
  have hlen : (visibleLabels nodes (allTriples nodes links)).length =
      (visibleIdx nodes.length (allTriples nodes links)).length := by
    simp [visibleLabels]
  constructor
  · rw [← hrw, rewriteTriple, hk1, hlen]
    exact hl1
  · rw [← hrw, rewriteTriple, hk2, hlen]
    exact hl2

/-- C10: the visible index list is strictly increasing, `old_to_new_index`
maps an original index to `k` exactly when that index sits at position `k` of
the visible list (a bijection onto the new index range), and the reverse lookup of the annotator agrees with positional lookup, never returning `None` for an
in-range new index, with a unique preimage. -/
theorem old_to_new_strictly_increasing_bijection (N : Nat) (triples : List Triple) :
    (visibleIdx N triples).Pairwise (· < ·) ∧
    (∀ o k, oldToNew N triples o = some k ↔ (visibleIdx N triples).get? k = some o) ∧
    (∀ v, v < (visibleIdx N triples).length →
      originalIdx N triples v = (visibleIdx N triples).get? v ∧
      (originalIdx N triples v).isSome = true ∧
      (∃! o, oldToNew N triples o = some v)) := by
  refine ⟨visibleIdx_sorted N triples, fun o k => oldToNew_eq_some_iff, fun v hv => ?_⟩
  have hget : (visibleIdx N triples).get? v =
      some ((visibleIdx N triples).get ⟨v, hv⟩) := List.get?_eq_get hv
  refine ⟨originalIdx_eq_get? N triples v, ?_, ?_⟩
  · rw [originalIdx_eq_get? N triples v, hget]
    rfl
  · refine ⟨(visibleIdx N triples).get ⟨v, hv⟩, oldToNew_eq_some_iff.mpr hget, ?_⟩
    intro o ho
    have := oldToNew_eq_some_iff.mp ho
    rw [hget] at this
    exact Option.some.inj this.symm

/-- C7: when every node is classified hidden the pipeline produces an empty
visible-node list, an empty filtered-link list, and empty hover-text arrays,
with no failure. -/
theorem all_hidden_gives_empty_outputs (nodes : List Node) (links : List Link)
    (h : ∀ i < nodes.length, isHidden (allTriples nodes links) i = true) :
    visibleLabels nodes (allTriples nodes links) = [] ∧
    filteredLinks nodes.length (allTriples nodes links) = [] ∧
    hoverLabels nodes (allTriples nodes links) = [] ∧
    nodeHoverLabels nodes (allTriples nodes links) = [] ∧
    runPipeline ⟨some (nodes.map (fun n => ⟨some n.id, some n.name⟩)),
        some (links.map (fun l => ⟨some l.source, some l.target, some l.value⟩))⟩ =
      .ok (buildOutput nodes links) := by
  have hb := allTriples_bounded nodes links
  have hvis : visibleIdx nodes.length (allTriples nodes links) = [] := by
    rw [visibleIdx, List.filter_eq_nil]
    intro i hi
    rw [h i (List.mem_range.mp hi)]
    simp
  have hfil : filteredLinks nodes.length (allTriples nodes links) = [] := by
    rw [filteredLinks_eq_filterMap]
    have : (allTriples nodes links).filter
        (fun t => !(isHidden (allTriples nodes links) t.1) &&
          !(isHidden (allTriples nodes links) t.2.1)) = [] := by
      rw [List.filter_eq_nil]
      intro t ht
      rw [h t.1 (hb t ht).1]
      simp
    rw [this]
    rfl
  refine ⟨?_, hfil, ?_, ?_, ?_⟩
  · rw [visibleLabels, hvis]
    rfl
  · rw [hoverLabels, hfil]
    rfl
  · rw [nodeHoverLabels, hvis]
    rfl
  · rw [runPipeline, loadDoc]
    simp only [loadNodes_map_ok, loadLinks_map_ok]

/-- C9: the per-link hover array is parallel to the filtered link list (same
length, same order), and each entry is built from exactly the source
label, target label and value of that link — the labels read through the reindexed
endpoints agree with the original labels of the endpoints of that link. -/
theorem link_hover_parallel_and_faithful (nodes : List Node) (links : List Link) :
    (hoverLabels nodes (allTriples nodes links)).length =
      (filteredLinks nodes.length (allTriples nodes links)).length ∧
    ∀ k, k < (filteredLinks nodes.length (allTriples nodes links)).length →
      ∃ t ∈ allTriples nodes links,
        isHidden (allTriples nodes links) t.1 = false ∧
        isHidden (allTriples nodes links) t.2.1 = false ∧
        (filteredLinks nodes.length (allTriples nodes links)).get? k =
          some (rewriteTriple nodes.length (allTriples nodes links) t) ∧
        (hoverLabels nodes (allTriples nodes links)).get? k =
          some (linkHoverText ((nodeLabels nodes).getD t.1 "")
            ((nodeLabels nodes).getD t.2.1 "") t.2.2) := by
  have hb := allTriples_bounded nodes links
  constructor
  · rw [hoverLabels]
    exact List.length_map _ _
  · intro k hk
    have hk' : k < ((allTriples nodes links).filter
        (fun t => !(isHidden (allTriples nodes links) t.1) &&
          !(isHidden (allTriples nodes links) t.2.1))).length := by
      rw [filteredLinks_eq_filterMap, List.length_map] at hk
      exact hk
    obtain ⟨t, hget⟩ : ∃ t, ((allTriples nodes links).filter
        (fun t => !(isHidden (allTriples nodes links) t.1) &&
          !(isHidden (allTriples nodes links) t.2.1))).get? k = some t :=
      ⟨_, List.get?_eq_get hk'⟩
    have htmem := List.get?_mem hget
    rcases List.mem_filter.mp htmem with ⟨htin, hpred⟩
    rw [Bool.and_eq_true, Bool.not_eq_true', Bool.not_eq_true'] at hpred
    rcases oldToNew_of_visible (hb t htin).1 hpred.1 with ⟨k1, hk1, _⟩
    rcases oldToNew_of_visible (hb t htin).2 hpred.2 with ⟨k2, hk2, _⟩
    have e1 : (rewriteTriple nodes.length (allTriples nodes links) t).1 = k1 := by
      rw [rewriteTriple, hk1]
      rfl
    have e2 : (rewriteTriple nodes.length (allTriples nodes links) t).2.1 = k2 := by
      rw [rewriteTriple, hk2]
      rfl
    refine ⟨t, htin, hpred.1, hpred.2, ?_, ?_⟩
    · rw [filteredLinks_eq_filterMap, List.get?_map, hget]
      rfl
    · rw [hoverLabels, List.get?_map, filteredLinks_eq_filterMap, List.get?_map, hget]
      simp only [Option.map_some']
      rw [e1, e2, visibleLabels_getD_eq hk1, visibleLabels_getD_eq hk2]
      rfl

/-- C2: for every visible node (new index `v`, original index `o`), the
values `total_incoming`/`total_outgoing` of the annotator are the sums of the values of
all original resolved links targeting/sourcing `o` — taken over the full
unfiltered link list — and the total shown in the hover summary of that node is
`max(total_incoming, total_outgoing)`. -/
theorem node_totals_and_display_total (nodes : List Node) (links : List Link) (v : Nat)
    (hv : v < (visibleIdx nodes.length (allTriples nodes links)).length) :
    ∃ o, originalIdx nodes.length (allTriples nodes links) v = some o ∧
      totalIncoming (allTriples nodes links) (some o) =
        ((allTriples nodes links).map (fun t => if t.2.1 = o then t.2.2 else 0)).sum ∧
      totalOutgoing (allTriples nodes links) (some o) =
        ((allTriples nodes links).map (fun t => if t.1 = o then t.2.2 else 0)).sum ∧
      ∃ rest,
        (nodeHoverLabels nodes (allTriples nodes links)).get? v =
          some ("<b>" ++ (visibleLabels nodes (allTriples nodes links)).getD v "" ++ ": " ++
            fmtMoney (max (totalIncoming (allTriples nodes links) (some o))
              (totalOutgoing (allTriples nodes links) (some o))) ++ " zł</b>" ++ rest) := by
  obtain ⟨o, hget⟩ : ∃ o, (visibleIdx nodes.length (allTriples nodes links)).get? v = some o :=
    ⟨_, List.get?_eq_get hv⟩
  have ho : originalIdx nodes.length (allTriples nodes links) v = some o := by
    rw [originalIdx_eq_get?, hget]
  refine ⟨o, ho, ?_, ?_, ?_⟩
  · rw [totalIncoming, sum_map_filter_eq_sum_ite]
    simp [beq_iff_eq]
  · rw [totalOutgoing, sum_map_filter_eq_sum_ite]
    simp [beq_iff_eq]
  · have hvr : v < (List.range
        (visibleIdx nodes.length (allTriples nodes links)).length).length := by
      rw [List.length_range]
      exact hv
    refine ⟨concatAll
      ((if (incomingEntries (nodeLabels nodes) (allTriples nodes links) (some o)).isEmpty
          then []
          else "<br><br>Wpływy:" ::
            (incomingEntries (nodeLabels nodes) (allTriples nodes links) (some o)).map
              (fun line => "<br>" ++ line))
        ++ (if (outgoingEntries (nodeLabels nodes) (allTriples nodes links) (some o)).isEmpty
          then []
          else "<br><br>Wypływy:" ::
            (outgoingEntries (nodeLabels nodes) (allTriples nodes links) (some o)).map
              (fun line => "<br>" ++ line))), ?_⟩
    rw [nodeHoverLabels, List.get?_map, List.get?_range (by simpa using hvr)]
    simp only [Option.map_some']
    rw [ho]
    rfl

/-- C8: a malformed input document — missing `nodes` or `links` collection, or
a node/link object missing a required field — makes the pipeline fail with an
error before producing anything: no output bundle is ever returned. -/
theorem malformed_input_aborts (d : RawDoc)
    (h : d.nodes = none ∨ d.links = none ∨
      (∃ rn ∈ d.nodes.getD [], rn.id = none ∨ rn.name = none) ∨
      (∃ rl ∈ d.links.getD [], rl.source = none ∨ rl.target = none ∨ rl.value = none)) :
    (∃ e, runPipeline d = Except.error e) ∧ ∀ out, runPipeline d ≠ Except.ok out := by
  have herr : ∃ e, runPipeline d = Except.error e := by
    rcases h with h | h | h | h
    · exact ⟨"KeyError: nodes", by simp [runPipeline, loadDoc, h]⟩
    · rcases hn : d.nodes with _ | ns
      · exact ⟨"KeyError: nodes", by simp [runPipeline, loadDoc, hn]⟩
      · exact ⟨"KeyError: links", by simp [runPipeline, loadDoc, hn, h]⟩
    · rcases hn : d.nodes with _ | ns
      · exact ⟨"KeyError: nodes", by simp [runPipeline, loadDoc, hn]⟩
      rw [hn] at h
      simp only [Option.getD_some] at h
      rcases loadNodes_error_of_bad h with ⟨e, he⟩
      rcases hl : d.links with _ | ls
      · exact ⟨"KeyError: links", by simp [runPipeline, loadDoc, hn, hl]⟩
      · exact ⟨e, by simp [runPipeline, loadDoc, hn, hl, he]⟩
    · rcases hn : d.nodes with _ | ns
      · exact ⟨"KeyError: nodes", by simp [runPipeline, loadDoc, hn]⟩
      rcases hl : d.links with _ | ls
      · exact ⟨"KeyError: links", by simp [runPipeline, loadDoc, hn, hl]⟩
      rw [hl] at h
      simp only [Option.getD_some] at h
      rcases loadLinks_error_of_bad h with ⟨e, he⟩
      cases hln : loadNodes ns with
      | error e2 => exact ⟨e2, by simp [runPipeline, loadDoc, hn, hl, hln]⟩
      | ok ndl => exact ⟨e, by simp [runPipeline, loadDoc, hn, hl, hln, he]⟩
  refine ⟨herr, ?_⟩
  rcases herr with ⟨e, he⟩
  intro out
  rw [he]
  intro hc
  exact absurd hc (by simp)

/-! ### Witnesses for the claim theorems with hypotheses -/

/-- C2 witness: scenario C at new index 0 (node B, original index 1). -/
theorem node_totals_and_display_total_witness :
    (0 < (visibleIdx exNodes.length (allTriples exNodes exLinks)).length) ∧
    (∃ o, originalIdx exNodes.length (allTriples exNodes exLinks) 0 = some o ∧
      totalIncoming (allTriples exNodes exLinks) (some o) =
        ((allTriples exNodes exLinks).map (fun t => if t.2.1 = o then t.2.2 else 0)).sum ∧
      totalOutgoing (allTriples exNodes exLinks) (some o) =
        ((allTriples exNodes exLinks).map (fun t => if t.1 = o then t.2.2 else 0)).sum ∧
      ∃ rest,
        (nodeHoverLabels exNodes (allTriples exNodes exLinks)).get? 0 =
          some ("<b>" ++ (visibleLabels exNodes (allTriples exNodes exLinks)).getD 0 "" ++
            ": " ++
            fmtMoney (max (totalIncoming (allTriples exNodes exLinks) (some o))
              (totalOutgoing (allTriples exNodes exLinks) (some o))) ++ " zł</b>" ++ rest)) :=
  ⟨by decide, node_totals_and_display_total exNodes exLinks 0 (by decide)⟩

/-- C3 witness: the resolved triples of scenario C with N = 4. -/
theorem filtered_links_characterization_witness :
    triplesBounded 4 [(0, 1, 10), (1, 2, 7), (2, 3, 7)] ∧
    (filteredLinks 4 [(0, 1, 10), (1, 2, 7), (2, 3, 7)] =
      (([((0 : Nat), (1 : Nat), (10 : Int)), (1, 2, 7), (2, 3, 7)]).filter
        (fun t => !(isHidden [(0, 1, 10), (1, 2, 7), (2, 3, 7)] t.1) &&
          !(isHidden [(0, 1, 10), (1, 2, 7), (2, 3, 7)] t.2.1))).map
        (rewriteTriple 4 [(0, 1, 10), (1, 2, 7), (2, 3, 7)]) ∧
    (filteredLinks 4 [(0, 1, 10), (1, 2, 7), (2, 3, 7)]).map (fun t => t.2.2) =
      (([((0 : Nat), (1 : Nat), (10 : Int)), (1, 2, 7), (2, 3, 7)]).filter
        (fun t => !(isHidden [(0, 1, 10), (1, 2, 7), (2, 3, 7)] t.1) &&
          !(isHidden [(0, 1, 10), (1, 2, 7), (2, 3, 7)] t.2.1))).map
        (fun t => t.2.2) ∧
    (∀ ft ∈ filteredLinks 4 [(0, 1, 10), (1, 2, 7), (2, 3, 7)],
      ∃ t ∈ [((0 : Nat), (1 : Nat), (10 : Int)), (1, 2, 7), (2, 3, 7)],
        isHidden [(0, 1, 10), (1, 2, 7), (2, 3, 7)] t.1 = false ∧
        isHidden [(0, 1, 10), (1, 2, 7), (2, 3, 7)] t.2.1 = false ∧
        oldToNew 4 [(0, 1, 10), (1, 2, 7), (2, 3, 7)] t.1 = some ft.1 ∧
        oldToNew 4 [(0, 1, 10), (1, 2, 7), (2, 3, 7)] t.2.1 = some ft.2.1 ∧
        ft.2.2 = t.2.2)) :=
  ⟨by unfold triplesBounded; decide,
    filtered_links_characterization 4 [(0, 1, 10), (1, 2, 7), (2, 3, 7)]
      (by unfold triplesBounded; decide)⟩

/-- C4 witness: the one filtered link of scenario C has in-range endpoints. -/
theorem filtered_indices_in_range_witness :
    ((0, 1, 7) : Triple) ∈ filteredLinks exNodes.length (allTriples exNodes exLinks) ∧
    (((0, 1, 7) : Triple).1 < (visibleLabels exNodes (allTriples exNodes exLinks)).length ∧
      ((0, 1, 7) : Triple).2.1 <
        (visibleLabels exNodes (allTriples exNodes exLinks)).length) :=
  ⟨by decide, filtered_indices_in_range exNodes exLinks (0, 1, 7) (by decide)⟩

/-- C7 witness: scenario E, where both nodes are hidden. -/
theorem all_hidden_gives_empty_outputs_witness :
    (∀ i < exNodesE.length, isHidden (allTriples exNodesE exLinksE) i = true) ∧
    (visibleLabels exNodesE (allTriples exNodesE exLinksE) = [] ∧
      filteredLinks exNodesE.length (allTriples exNodesE exLinksE) = [] ∧
      hoverLabels exNodesE (allTriples exNodesE exLinksE) = [] ∧
      nodeHoverLabels exNodesE (allTriples exNodesE exLinksE) = [] ∧
      runPipeline ⟨some (exNodesE.map (fun n => ⟨some n.id, some n.name⟩)),
          some (exLinksE.map (fun l => ⟨some l.source, some l.target, some l.value⟩))⟩ =
        .ok (buildOutput exNodesE exLinksE)) :=
  ⟨by decide, all_hidden_gives_empty_outputs exNodesE exLinksE (by decide)⟩

/-- C8 witness: a document with no `nodes` collection aborts with an error. -/
theorem malformed_input_aborts_witness :
    ((⟨none, some []⟩ : RawDoc).nodes = none ∨ (⟨none, some []⟩ : RawDoc).links = none ∨
      (∃ rn ∈ (⟨none, some []⟩ : RawDoc).nodes.getD [], rn.id = none ∨ rn.name = none) ∨
      (∃ rl ∈ (⟨none, some []⟩ : RawDoc).links.getD [],
        rl.source = none ∨ rl.target = none ∨ rl.value = none)) ∧
    ((∃ e, runPipeline ⟨none, some []⟩ = Except.error e) ∧
      ∀ out, runPipeline ⟨none, some []⟩ ≠ Except.ok out) :=
  ⟨Or.inl rfl, malformed_input_aborts ⟨none, some []⟩ (Or.inl rfl)⟩

end Sankey
